import Mathlib

/-!
Shallow embedding of `mergecap.cpp`: a program that merges the PCAP files of a
directory into one output file, ordered by the timestamp of each input's first
packet.

Files are modelled as lists of byte values (`List Nat`); the host byte order of
the struct overlays in the source is modelled as little-endian.  Fallible
system calls are modelled by explicit success flags or by `Option` results.
-/

namespace Mergecap

/-! ### PCAP constants (namespace `pcap` in the source) -/

def magic_microseconds : Nat := 0xa1b2c3d4

def magic_nanoseconds : Nat := 0xa1b23c4d

def version_major : Nat := 2

def version_minor : Nat := 4

/-- Size of `pcap_file_header`: 24 bytes. -/
def sizeof_file_header : Nat := 24

/-- Size of `pcap_pkthdr`: 16 bytes. -/
def sizeof_pkthdr : Nat := 16

/-- Minimum size of a PCAP file: `sizeof(pcap_file_header) + sizeof(pcap_pkthdr)`. -/
def minimum_size : Nat := sizeof_file_header + sizeof_pkthdr

/-! ### Byte-level decoding (the host-order struct overlay on `buf`) -/

/-- Read a 16-bit unsigned value at byte offset `off` (little-endian host). -/
def readU16 (bs : List Nat) (off : Nat) : Nat :=
  bs.getD off 0 + 256 * bs.getD (off + 1) 0

/-- Read a 32-bit unsigned value at byte offset `off` (little-endian host). -/
def readU32 (bs : List Nat) (off : Nat) : Nat :=
  bs.getD off 0 + 256 * bs.getD (off + 1) 0 +
    65536 * bs.getD (off + 2) 0 + 16777216 * bs.getD (off + 3) 0

/-! ### `get_first_timestamp`

The input is `none` when `open` fails, otherwise the file's bytes.  `read`
on a regular file returns `min(minimum_size, length)` bytes, so the source's
check `read(...) == minimum_size` holds exactly when the file has at least
`minimum_size` bytes. -/

def get_first_timestamp (file : Option (List Nat)) : Option Nat :=
  match file with
  | none => none
  | some bs =>
    if minimum_size ≤ bs.length then
      if (readU32 bs 0 == magic_microseconds || readU32 bs 0 == magic_nanoseconds)
          && (readU16 bs 4 == version_major)
          && (readU16 bs 6 == version_minor) then
        some (readU32 bs 24 * 1000000 + readU32 bs 28)
      else
        none
    else
      none

/-! ### Directory-scanner filter (the candidate test in `main`'s loop) -/

/-- ASCII lower-casing, as `strcasecmp` folds characters. -/
def to_lower (c : Nat) : Nat := if 65 ≤ c && c ≤ 90 then c + 32 else c

/-- The bytes of the string `"pcap"`. -/
def pcap_suffix : List Nat := [112, 99, 97, 112]

/-- The name test in `main`:
`len > 5 && name[len-5] == '.' && strcasecmp(name + len - 4, "pcap") == 0`. -/
def is_pcap_name (name : List Nat) : Bool :=
  decide (5 < name.length) &&
    (name.getD (name.length - 5) 0 == 46) &&
    ((name.drop (name.length - 4)).map to_lower == pcap_suffix)

/-- The whole candidate test:
`stat(pathname, &sbuf) == 0 && S_ISREG(...) && sbuf.st_size > minimum_size`
followed by the name test. -/
def scanner_admits (statOk isReg : Bool) (size : Nat) (name : List Nat) : Bool :=
  statOk && isReg && decide (minimum_size < size) && is_pcap_name name

/-! ### The `pcap::files` class -/

/-- Struct `pcap::file`: one Input Entry. -/
structure pfile where
  filename : List Nat
  filesize : Nat
  timestamp : Nat
deriving DecidableEq

/-- State of a `pcap::files` object: `entries` are the `_M_used` stored
elements of `_M_files`; `capacity` is `_M_size`. -/
structure files_state where
  entries : List pfile
  capacity : Nat
deriving DecidableEq

/-- Method `pcap::files::allocate`.  `reallocOk` models whether `realloc` succeeds;
`none` is the `false` return. -/
def files_allocate (st : files_state) (reallocOk : Bool) : Option files_state :=
  if st.entries.length < st.capacity then
    some st
  else if reallocOk then
    some { st with capacity := if 0 < st.capacity then st.capacity * 2 else 1024 }
  else
    none

/-- Method `pcap::files::add`.  `strdupOk` models whether `strdup` succeeds.  Returns
the `bool` result of the source together with the state after the call. -/
def files_add (st : files_state) (reallocOk strdupOk : Bool)
    (filename : List Nat) (filesize timestamp : Nat) : Bool × files_state :=
  match files_allocate st reallocOk with
  | some st1 =>
    if strdupOk then
      (true, { st1 with entries := st1.entries ++ [⟨filename, filesize, timestamp⟩] })
    else
      (false, st1)
  | none => (false, st)

/-- Method `pcap::files::get`: `(idx < _M_used) ? &_M_files[idx] : nullptr`. -/
def files_get (st : files_state) (idx : Nat) : Option pfile :=
  if h : idx < st.entries.length then some (st.entries.get ⟨idx, h⟩) else none

/-- Comparator `pcap::files::compare` on the two 64-bit timestamps. -/
def compare_timestamps (t1 t2 : Nat) : Int :=
  if t1 < t2 then -1 else if t2 < t1 then 1 else 0

/-- The ordering `qsort` establishes from `compare`: an element may precede
another whenever the comparator does not order it strictly after it. -/
def pfile_le (f1 f2 : pfile) : Prop :=
  compare_timestamps f1.timestamp f2.timestamp ≤ 0

instance (f1 f2 : pfile) : Decidable (pfile_le f1 f2) := by
  unfold pfile_le; infer_instance

/-- Method `pcap::files::sort`: `qsort` with `compare`, modelled by a comparison sort
with the comparator's order (qsort promises a sorted permutation and nothing
more). -/
def files_sort (st : files_state) : files_state :=
  { st with entries := List.insertionSort pfile_le st.entries }

/-! ### The write loop of `copy_file`

The trace is the sequence of `write(2)` results: the returned `ssize_t` and
whether `errno == EINTR` (consulted only when the return value is negative).
`written` is the cursor.  `none` means the trace ended (or the loop never
terminated within it). -/

def write_loop (to_copy : Nat) : List (Int × Bool) → Nat → Option Bool
  | [], _ => none
  | (ret, eintr) :: rest, written =>
    if 0 < ret then
      if written + ret.toNat = to_copy then some true
      else write_loop to_copy rest (written + ret.toNat)
    else if ret < 0 then
      if eintr then write_loop to_copy rest written else some false
    else
      write_loop to_copy rest written

/-! ### A run of `main`

A directory entry carries the file's bytes (`content`, so `st_size` is
`content.length`) and flags for the fallible calls touching it:
`statOk`/`isReg` for `stat`, `openOk` for the probe's `open`, `addOk` for the
allocations inside `files::add`, `copyOk` for the system calls of
`copy_file`. -/

structure entry where
  name : List Nat
  statOk : Bool
  isReg : Bool
  content : List Nat
  openOk : Bool
  addOk : Bool
  copyOk : Bool
deriving DecidableEq

/-- Call `get_first_timestamp(pathname, timestamp)` for a directory entry. -/
def probe_entry (e : entry) : Option Nat :=
  get_first_timestamp (if e.openOk then some e.content else none)

/-- The candidate test of `main` applied to a directory entry. -/
def entry_admitted (e : entry) : Bool :=
  scanner_admits e.statOk e.isReg e.content.length e.name

/-- The `readdir` loop of `main`: accumulates accepted `(entry, timestamp)`
pairs and the running output `filesize`; `none` is the allocation-failure
abort. -/
def scan_loop : List entry → List (entry × Nat) → Nat → Option (List (entry × Nat) × Nat)
  | [], acc, filesize => some (acc, filesize)
  | e :: rest, acc, filesize =>
    if entry_admitted e then
      match probe_entry e with
      | some ts =>
        if e.addOk then
          scan_loop rest (acc ++ [(e, ts)])
            (filesize + (e.content.length - sizeof_file_header))
        else
          none
      | none => scan_loop rest acc filesize
    else
      scan_loop rest acc filesize

/-- The comparator's order on accepted `(entry, timestamp)` pairs. -/
def pair_le (a b : entry × Nat) : Prop :=
  compare_timestamps a.2 b.2 ≤ 0

instance (a b : entry × Nat) : Decidable (pair_le a b) := by
  unfold pair_le; infer_instance

/-- Effect of `files.sort()` applied to the accepted pairs (same comparator on the
timestamp component). -/
def sort_accepted (l : List (entry × Nat)) : List (entry × Nat) :=
  List.insertionSort pair_le l

/-- The copy loop of `main`: the `i`-th `copy_file` call writes the mapped
bytes of the input from offset `(i > 0) ? sizeof(pcap_file_header) : 0`;
`out` is the byte stream written to the output so far; `none` is the
copy-failure abort. -/
def copy_loop : List (entry × Nat) → Nat → List Nat → Option (List Nat)
  | [], _, out => some out
  | (e, _) :: rest, i, out =>
    if e.copyOk then
      copy_loop rest (i + 1)
        (out ++ e.content.drop (if 0 < i then sizeof_file_header else 0))
    else
      none

/-- Observable outcome of a run: the process exit code, whether the output
file was created, whether it was unlinked, and its final bytes when it
remains (`ftruncate` zero-fills; writes start at offset 0). -/
structure run_result where
  exit_code : Int
  output_created : Bool
  output_unlinked : Bool
  output : Option (List Nat)
deriving DecidableEq

/-- Environment of a run: the argument check, `stat`/`S_ISDIR` on the
directory, `open` of the output, `opendir`, the directory's entries, and
`ftruncate`. -/
structure env where
  argc_is_3 : Bool
  dir_is_dir : Bool
  open_out_ok : Bool
  opendir_ok : Bool
  entries : List entry
  ftruncate_ok : Bool

/-- Function `main`. -/
def main_run (ev : env) : run_result :=
  if ev.argc_is_3 then
    if ev.dir_is_dir then
      if ev.open_out_ok then
        if ev.opendir_ok then
          match scan_loop ev.entries [] sizeof_file_header with
          | none => ⟨-1, true, true, none⟩
          | some (acc, filesize) =>
            if ev.ftruncate_ok then
              match copy_loop (sort_accepted acc) 0 [] with
              | some written =>
                ⟨0, true, false,
                 some (written ++ List.replicate (filesize - written.length) 0)⟩
              | none => ⟨-1, true, true, none⟩
            else
              ⟨-1, true, true, none⟩
        else
          ⟨-1, true, true, none⟩
      else
        ⟨-1, false, false, none⟩
    else
      ⟨-1, false, false, none⟩
  else
    ⟨-1, false, false, none⟩

/-! ### Concrete sample data -/

/-- A 41-byte PCAP file: microsecond magic, version 2.4, one packet header
whose seconds field is `sec` (one byte) and whose sub-second field is zero,
and a single payload byte. -/
def sample_pcap (sec : Nat) : List Nat :=
  [0xd4, 0xc3, 0xb2, 0xa1, 2, 0, 4, 0,
   0, 0, 0, 0, 0, 0, 0, 0, 0, 0, 0, 0, 0, 0, 0, 0] ++
  [sec, 0, 0, 0] ++ [0, 0, 0, 0] ++ [1, 0, 0, 0] ++ [1, 0, 0, 0] ++ [0]

/-- A directory entry named `"a.pcap"` holding `sample_pcap sec`, with every
system call succeeding. -/
def sample_entry (sec : Nat) : entry :=
  { name := [97, 46, 112, 99, 97, 112]
    statOk := true
    isReg := true
    content := sample_pcap sec
    openOk := true
    addOk := true
    copyOk := true }

/-- An environment whose directory holds two accepted inputs, out of
timestamp order. -/
def env_two : env :=
  { argc_is_3 := true
    dir_is_dir := true
    open_out_ok := true
    opendir_ok := true
    entries := [sample_entry 2, sample_entry 1]
    ftruncate_ok := true }

/-- An environment whose directory holds exactly one accepted input. -/
def env_one : env :=
  { argc_is_3 := true
    dir_is_dir := true
    open_out_ok := true
    opendir_ok := true
    entries := [sample_entry 1]
    ftruncate_ok := true }

/-- An environment whose directory holds no entries at all. -/
def env_zero : env :=
  { argc_is_3 := true
    dir_is_dir := true
    open_out_ok := true
    opendir_ok := true
    entries := []
    ftruncate_ok := true }

/-- An environment where the output file is created but `opendir` fails. -/
def env_faildir : env :=
  { argc_is_3 := true
    dir_is_dir := true
    open_out_ok := true
    opendir_ok := false
    entries := []
    ftruncate_ok := true }

/-! ### Helper lemmas -/

instance : IsTotal pfile pfile_le :=
  ⟨fun a b => by
    unfold pfile_le compare_timestamps
    split_ifs <;> omega⟩

instance : IsTrans pfile pfile_le :=
  ⟨fun a b c hab hbc => by
    unfold pfile_le compare_timestamps at *
    split_ifs at * <;> omega⟩

instance : IsTotal (entry × Nat) pair_le :=
  ⟨fun a b => by
    unfold pair_le compare_timestamps
    split_ifs <;> omega⟩

instance : IsTrans (entry × Nat) pair_le :=
  ⟨fun a b c hab hbc => by
    unfold pair_le compare_timestamps at *
    split_ifs at * <;> omega⟩

theorem compare_timestamps_le_iff (t1 t2 : Nat) :
    compare_timestamps t1 t2 ≤ 0 ↔ t1 ≤ t2 := by
  unfold compare_timestamps
  split_ifs with h1 h2 <;> simp <;> omega

theorem pfile_le_iff (f1 f2 : pfile) :
    pfile_le f1 f2 ↔ f1.timestamp ≤ f2.timestamp := by
  simp [pfile_le, compare_timestamps_le_iff]

theorem pair_le_iff (a b : entry × Nat) : pair_le a b ↔ a.2 ≤ b.2 := by
  simp [pair_le, compare_timestamps_le_iff]

/-! ### C3: the write loop -/

/-- C3 (amended): in the write loop of `copy_file`, a positive return advances
the cursor (reaching `to_copy` completes the copy with success), a negative
return with `errno == EINTR` retries without effect, a negative return with
any other `errno` terminates the copy with failure, and a zero return is
retried without progress (it does not terminate the copy). -/
theorem write_loop_step (to_copy : Nat) (rest : List (Int × Bool))
    (written n : Nat) (eintr : Bool) :
    (write_loop to_copy ((Int.ofNat (n + 1), eintr) :: rest) written =
        if written + (n + 1) = to_copy then some true
        else write_loop to_copy rest (written + (n + 1))) ∧
    (write_loop to_copy ((Int.negSucc n, true) :: rest) written =
        write_loop to_copy rest written) ∧
    (write_loop to_copy ((Int.negSucc n, false) :: rest) written = some false) ∧
    (write_loop to_copy ((0, eintr) :: rest) written =
        write_loop to_copy rest written) := by
  refine ⟨?_, ?_, ?_, ?_⟩ <;> simp [write_loop]

/-- C3 (counterexample to the claim as stated): a trace whose first `write`
returns zero; the loop retries and the copy then succeeds, so a zero return
does not terminate the copy with failure. -/
theorem write_loop_zero_cex :
    write_loop 5 [((0 : Int), false), ((5 : Int), false)] 0 ≠ some false ∧
    write_loop 5 [((0 : Int), false), ((5 : Int), false)] 0 = some true := by
  constructor <;> decide

/-! ### C4: the header probe -/

/-- C4: `get_first_timestamp` accepts exactly when the file opened, has the
full first 40 bytes, its magic is `0xA1B2C3D4` or `0xA1B23C4D`, and its
version is major 2, minor 4; the returned timestamp is
`seconds * 1000000 + raw sub-second field`, with no unit conversion for
nanosecond-magic files.  Every rejection returns `none` (silent). -/
theorem get_first_timestamp_iff (f : Option (List Nat)) (t : Nat) :
    get_first_timestamp f = some t ↔
      ∃ bs, f = some bs ∧ minimum_size ≤ bs.length ∧
        (readU32 bs 0 = magic_microseconds ∨ readU32 bs 0 = magic_nanoseconds) ∧
        readU16 bs 4 = version_major ∧ readU16 bs 6 = version_minor ∧
        t = readU32 bs 24 * 1000000 + readU32 bs 28 := by
  cases f with
  | none => simp [get_first_timestamp]
  | some bs =>
    constructor
    · intro h
      simp only [get_first_timestamp] at h
      split_ifs at h with h1 h2
      · simp only [Bool.and_eq_true, Bool.or_eq_true, beq_iff_eq] at h2
        exact ⟨bs, rfl, h1, h2.1.1, h2.1.2, h2.2, (Option.some.inj h).symm⟩
    · rintro ⟨bs', hbs, hlen, hmagic, hmaj, hmin, ht⟩
      cases Option.some.inj hbs
      simp only [get_first_timestamp]
      rw [if_pos hlen, if_pos, ht]
      simp only [Bool.and_eq_true, Bool.or_eq_true, beq_iff_eq]
      exact ⟨⟨hmagic, hmaj⟩, hmin⟩

/-! ### C5: the directory-scanner filter -/

/-- C5: a directory entry is admitted as a candidate exactly when status
inspection succeeds and reports a regular file, its size strictly exceeds 40
bytes, its basename has at least 6 characters, the character 5 positions from
the end is `'.'` (byte 46), and the final 4 characters are `"pcap"` up to
ASCII case. -/
theorem scanner_admits_iff (statOk isReg : Bool) (size : Nat) (name : List Nat) :
    scanner_admits statOk isReg size name = true ↔
      statOk = true ∧ isReg = true ∧ 40 < size ∧ 6 ≤ name.length ∧
        name.getD (name.length - 5) 0 = 46 ∧
        (name.drop (name.length - 4)).map to_lower = [112, 99, 97, 112] := by
  simp only [scanner_admits, is_pcap_name, pcap_suffix, minimum_size,
    sizeof_file_header, sizeof_pkthdr, Bool.and_eq_true, decide_eq_true_eq,
    beq_iff_eq]
  constructor
  · rintro ⟨⟨⟨hs, hr⟩, hsize⟩, ⟨⟨hlen, hdot⟩, hsuf⟩⟩
    exact ⟨hs, hr, by omega, by omega, hdot, hsuf⟩
  · rintro ⟨hs, hr, hsize, hlen, hdot, hsuf⟩
    exact ⟨⟨⟨hs, hr⟩, by omega⟩, ⟨⟨by omega, hdot⟩, hsuf⟩⟩

/-! ### C9: `pcap::files::get` -/

/-- C9: `get idx` returns the `idx`-th stored entry when `idx` is below the
number of stored entries and null (`none`) otherwise; the stored entries are
never accessed out of bounds. -/
theorem files_get_spec (st : files_state) (idx : Nat) :
    files_get st idx = st.entries[idx]? ∧
      (st.entries.length ≤ idx → files_get st idx = none) := by
  constructor
  · unfold files_get
    split
    · next h => rw [List.get_eq_getElem, List.getElem?_eq_getElem h]
    · next h => rw [List.getElem?_eq_none (Nat.le_of_not_lt h)]
  · intro h
    unfold files_get
    rw [dif_neg (Nat.not_lt.mpr h)]

/-! ### C10: `pcap::files::add` -/

/-- C10: `add` returns true exactly when the allocation steps succeed (growth
is needed only when the stored count has reached capacity, `strdup` always
runs); on true it appends exactly one entry with the given filename, size and
timestamp, leaving the previously stored entries unchanged; on false the
stored entries are unchanged. -/
theorem files_add_spec (st : files_state) (rOk sOk : Bool) (fn : List Nat)
    (fs ts : Nat) :
    ((files_add st rOk sOk fn fs ts).1 =
        ((decide (st.entries.length < st.capacity) || rOk) && sOk)) ∧
    ((files_add st rOk sOk fn fs ts).1 = true →
        (files_add st rOk sOk fn fs ts).2.entries = st.entries ++ [⟨fn, fs, ts⟩]) ∧
    ((files_add st rOk sOk fn fs ts).1 = false →
        (files_add st rOk sOk fn fs ts).2.entries = st.entries) := by
  cases sOk <;> cases rOk <;>
    by_cases h : st.entries.length < st.capacity <;>
      simp [files_add, files_allocate, h]

/-! ### C2: the sort -/

/-- C2: sorting the Input Set yields a permutation of it that is ascending on
the 64-bit timestamp value; hence whenever two stored entries have
`timestamp a < timestamp b`, the position of `a` is strictly before the
position of `b`, so `a`'s body is emitted strictly before `b`'s. -/
theorem files_sort_spec (st : files_state) :
    ((files_sort st).entries).Perm st.entries ∧
    List.Pairwise (fun a b : pfile => a.timestamp ≤ b.timestamp)
      (files_sort st).entries ∧
    ∀ i j : Fin (files_sort st).entries.length,
      ((files_sort st).entries.get i).timestamp <
          ((files_sort st).entries.get j).timestamp →
        i < j := by
  have hperm : ((files_sort st).entries).Perm st.entries :=
    List.perm_insertionSort pfile_le st.entries
  have hsorted : List.Sorted pfile_le (files_sort st).entries :=
    List.sorted_insertionSort pfile_le st.entries
  have hp : List.Pairwise (fun a b : pfile => a.timestamp ≤ b.timestamp)
      (files_sort st).entries :=
    hsorted.imp fun h => (pfile_le_iff _ _).mp h
  refine ⟨hperm, hp, fun i j hij => ?_⟩
  by_contra hnot
  rcases eq_or_lt_of_le (not_lt.mp hnot) with heq | hlt
  · rw [heq] at hij
    exact lt_irrefl _ hij
  · have hle := List.pairwise_iff_get.mp hp j i hlt
    omega

/-! ### The scan and copy loops of `main` -/

theorem scan_loop_spec (l : List entry) :
    ∀ (acc : List (entry × Nat)) (n : Nat) (acc' : List (entry × Nat)) (fs : Nat),
    scan_loop l acc n = some (acc', fs) →
    ∃ s, acc' = acc ++ s ∧
      fs = n + (s.map fun p => p.1.content.length - sizeof_file_header).sum ∧
      ∀ p ∈ s, entry_admitted p.1 = true := by
  induction l with
  | nil =>
    intro acc n acc' fs h
    simp only [scan_loop, Option.some.injEq, Prod.mk.injEq] at h
    obtain ⟨h1, h2⟩ := h
    subst h1; subst h2
    exact ⟨[], by simp, by simp, by simp⟩
  | cons e rest ih =>
    intro acc n acc' fs h
    by_cases ha : entry_admitted e = true
    · rcases hp : probe_entry e with _ | ts
      · simp only [scan_loop, ha, if_true, hp] at h
        exact ih acc n acc' fs h
      · cases hadd : e.addOk with
        | false => simp [scan_loop, ha, hp, hadd] at h
        | true =>
          simp only [scan_loop, ha, if_true, hp, hadd] at h
          obtain ⟨s, hs1, hs2, hs3⟩ := ih _ _ _ _ h
          refine ⟨(e, ts) :: s, ?_, ?_, ?_⟩
          · rw [hs1, List.append_assoc, List.singleton_append]
          · rw [hs2]
            simp only [List.map_cons, List.sum_cons]
            omega
          · intro p hps
            rcases List.mem_cons.mp hps with h1 | h1
            · cases h1; exact ha
            · exact hs3 p h1
    · simp only [scan_loop, ha, if_false, Bool.false_eq_true] at h
      exact ih acc n acc' fs h

theorem copy_loop_tail (l : List (entry × Nat)) :
    ∀ (i : Nat) (out w : List Nat), 1 ≤ i → copy_loop l i out = some w →
    w = out ++ l.flatMap fun q => q.1.content.drop sizeof_file_header := by
  induction l with
  | nil =>
    intro i out w _ h
    simp only [copy_loop, Option.some.injEq] at h
    simp [← h]
  | cons p rest ih =>
    intro i out w hi h
    obtain ⟨e, ts⟩ := p
    cases hc : e.copyOk with
    | false => simp [copy_loop, hc] at h
    | true =>
      simp only [copy_loop, hc, if_true] at h
      have hdrop : (if 0 < i then sizeof_file_header else 0) = sizeof_file_header :=
        if_pos (by omega)
      rw [hdrop] at h
      rw [ih (i + 1) _ w (by omega) h]
      simp [List.append_assoc]

theorem copy_loop_head (p : entry × Nat) (rest : List (entry × Nat)) (w : List Nat)
    (h : copy_loop (p :: rest) 0 [] = some w) :
    p.1.copyOk = true ∧
      w = p.1.content ++ rest.flatMap fun q => q.1.content.drop sizeof_file_header := by
  obtain ⟨e, ts⟩ := p
  cases hc : e.copyOk with
  | false => simp [copy_loop, hc] at h
  | true =>
    simp only [copy_loop, hc, if_true] at h
    refine ⟨rfl, ?_⟩
    have := copy_loop_tail rest 1 _ w (le_refl 1) h
    simpa using this

/-! ### C6: cleanup on failure -/

/-- C6: whenever the output file has been created and the run ends with a
non-zero exit code (directory-open failure, allocation failure, pre-size
failure, or copy failure), the output path has been unlinked, so no partial
output remains. -/
theorem failure_cleanup (ev : env)
    (hcreated : (main_run ev).output_created = true)
    (hfail : (main_run ev).exit_code ≠ 0) :
    (main_run ev).output_unlinked = true ∧ (main_run ev).output = none := by
  cases hA : ev.argc_is_3 with
  | false => simp [main_run, hA] at hcreated
  | true =>
  cases hD : ev.dir_is_dir with
  | false => simp [main_run, hA, hD] at hcreated
  | true =>
  cases hO : ev.open_out_ok with
  | false => simp [main_run, hA, hD, hO] at hcreated
  | true =>
  cases hDir : ev.opendir_ok with
  | false => simp [main_run, hA, hD, hO, hDir]
  | true =>
  rcases hscan : scan_loop ev.entries [] sizeof_file_header with _ | ⟨acc, fs⟩
  · simp [main_run, hA, hD, hO, hDir, hscan]
  · cases hT : ev.ftruncate_ok with
    | false => simp [main_run, hA, hD, hO, hDir, hscan, hT]
    | true =>
      rcases hcopy : copy_loop (sort_accepted acc) 0 [] with _ | written
      · simp [main_run, hA, hD, hO, hDir, hscan, hT, hcopy]
      · exfalso
        apply hfail
        simp [main_run, hA, hD, hO, hDir, hscan, hT, hcopy]

/-- C6 witness: a concrete run where the output is created and `opendir`
fails. -/
theorem failure_cleanup_witness :
    (main_run env_faildir).output_created = true ∧
    (main_run env_faildir).exit_code ≠ 0 ∧
    (main_run env_faildir).output_unlinked = true ∧
    (main_run env_faildir).output = none :=
  ⟨rfl, by decide, failure_cleanup env_faildir rfl (by decide)⟩

/-! ### C7: zero accepted inputs -/

/-- C7: a run whose scan accepts zero inputs (with the surrounding system
calls succeeding) exits with status 0 and leaves an output of exactly 24
bytes, all zero: only the pre-sizing `ftruncate` touched the file and no
bytes were ever written. -/
theorem zero_inputs_output (ev : env) (fs : Nat)
    (hA : ev.argc_is_3 = true) (hD : ev.dir_is_dir = true)
    (hO : ev.open_out_ok = true) (hDir : ev.opendir_ok = true)
    (hT : ev.ftruncate_ok = true)
    (hscan : scan_loop ev.entries [] sizeof_file_header = some ([], fs)) :
    main_run ev = ⟨0, true, false, some (List.replicate 24 0)⟩ := by
  obtain ⟨s, hs1, hs2, -⟩ :=
    scan_loop_spec ev.entries [] sizeof_file_header [] fs hscan
  have hs : s = [] := by simpa using hs1.symm
  subst hs
  simp only [List.map_nil, List.sum_nil, Nat.add_zero] at hs2
  subst hs2
  rw [show sizeof_file_header = 24 from rfl] at hscan
  simp [main_run, hA, hD, hO, hDir, hT, hscan, sort_accepted, copy_loop,
    List.insertionSort, sizeof_file_header]

/-- C7 witness: the empty directory. -/
theorem zero_inputs_output_witness :
    scan_loop env_zero.entries [] sizeof_file_header =
        some ([], sizeof_file_header) ∧
      main_run env_zero = ⟨0, true, false, some (List.replicate 24 0)⟩ :=
  ⟨rfl, zero_inputs_output env_zero sizeof_file_header rfl rfl rfl rfl rfl rfl⟩

/-! ### C8: a single accepted input -/

/-- C8: a run whose scan accepts exactly one input (with the surrounding
system calls succeeding) exits with status 0 and its output equals that
input byte for byte: the whole file, header included, is copied at offset 0
and the pre-sized length equals the input's size. -/
theorem single_input_identity (ev : env) (e : entry) (ts fs : Nat)
    (hA : ev.argc_is_3 = true) (hD : ev.dir_is_dir = true)
    (hO : ev.open_out_ok = true) (hDir : ev.opendir_ok = true)
    (hT : ev.ftruncate_ok = true)
    (hscan : scan_loop ev.entries [] sizeof_file_header = some ([(e, ts)], fs))
    (hcopy : e.copyOk = true) :
    main_run ev = ⟨0, true, false, some e.content⟩ := by
  obtain ⟨s, hs1, hs2, hadm⟩ :=
    scan_loop_spec ev.entries [] sizeof_file_header [(e, ts)] fs hscan
  have hs : s = [(e, ts)] := by simpa using hs1.symm
  subst hs
  have hadme : entry_admitted e = true := by simpa using hadm (e, ts) (by simp)
  have hlen : 24 ≤ e.content.length := by
    simp only [entry_admitted, scanner_admits, Bool.and_eq_true,
      decide_eq_true_eq] at hadme
    have h40 := hadme.1.2
    simp [minimum_size, sizeof_file_header, sizeof_pkthdr] at h40
    omega
  have hfs : fs = e.content.length := by
    simp only [List.map_cons, List.map_nil, List.sum_cons, List.sum_nil] at hs2
    rw [show sizeof_file_header = 24 from rfl] at hs2
    omega
  subst hfs
  simp [main_run, hA, hD, hO, hDir, hT, hscan, sort_accepted, copy_loop, hcopy,
    List.insertionSort, List.orderedInsert]

/-- C8 witness: a directory with one valid 41-byte PCAP file. -/
theorem single_input_identity_witness :
    scan_loop env_one.entries [] sizeof_file_header =
        some ([(sample_entry 1, 1000000)], 41) ∧
      main_run env_one = ⟨0, true, false, some (sample_entry 1).content⟩ :=
  ⟨rfl,
   single_input_identity env_one (sample_entry 1) 1000000 41
     rfl rfl rfl rfl rfl rfl rfl⟩

/-! ### C1: the concatenation invariant -/

/-- C1: any run that exits with status 0 having accepted at least one input
leaves an output that is the entire first sorted input (24-byte file header
included) followed by the body (bytes from offset 24 on) of each subsequent
sorted input, and its size is `24 + Σ (input.size - 24)` over the accepted
inputs. -/
theorem merge_concat_output (ev : env) (acc : List (entry × Nat)) (fs : Nat)
    (hscan : scan_loop ev.entries [] sizeof_file_header = some (acc, fs))
    (hne : acc ≠ [])
    (hexit : (main_run ev).exit_code = 0) :
    ∃ p rest, sort_accepted acc = p :: rest ∧
      (main_run ev).output = some (p.1.content ++
          rest.flatMap fun q => q.1.content.drop sizeof_file_header) ∧
      (p.1.content ++
          (rest.flatMap fun q => q.1.content.drop sizeof_file_header)).length =
        sizeof_file_header +
          (acc.map fun q => q.1.content.length - sizeof_file_header).sum := by
  cases hA : ev.argc_is_3 with
  | false => simp [main_run, hA] at hexit
  | true =>
  cases hD : ev.dir_is_dir with
  | false => simp [main_run, hA, hD] at hexit
  | true =>
  cases hO : ev.open_out_ok with
  | false => simp [main_run, hA, hD, hO] at hexit
  | true =>
  cases hDir : ev.opendir_ok with
  | false => simp [main_run, hA, hD, hO, hDir] at hexit
  | true =>
  cases hT : ev.ftruncate_ok with
  | false => simp [main_run, hA, hD, hO, hDir, hscan, hT] at hexit
  | true =>
  rcases hcopy : copy_loop (sort_accepted acc) 0 [] with _ | written
  · simp [main_run, hA, hD, hO, hDir, hscan, hT, hcopy] at hexit
  · have hout : (main_run ev).output =
        some (written ++ List.replicate (fs - written.length) 0) := by
      simp [main_run, hA, hD, hO, hDir, hscan, hT, hcopy]
    obtain ⟨s, hs1, hs2, hadm⟩ :=
      scan_loop_spec ev.entries [] sizeof_file_header acc fs hscan
    have hsacc : s = acc := by simpa using hs1.symm
    rw [hsacc] at hs2 hadm
    rcases hsort : sort_accepted acc with _ | ⟨p, rest⟩
    · exfalso
      have hperm : (sort_accepted acc).Perm acc :=
        List.perm_insertionSort pair_le acc
      rw [hsort] at hperm
      have := hperm.length_eq
      simp at this
      exact hne (List.length_eq_zero.mp this.symm)
    · obtain ⟨hpcopy, hw⟩ := copy_loop_head p rest written (hsort ▸ hcopy)
      have h24 : sizeof_file_header = 24 := rfl
      have hperm : (sort_accepted acc).Perm acc :=
        List.perm_insertionSort pair_le acc
      have hmem : ∀ q ∈ sort_accepted acc, entry_admitted q.1 = true :=
        fun q hq => hadm q (hperm.mem_iff.mp hq)
      have hplen : 24 ≤ p.1.content.length := by
        have hp := hmem p (by rw [hsort]; exact List.mem_cons_self p rest)
        simp only [entry_admitted, scanner_admits, Bool.and_eq_true,
          decide_eq_true_eq] at hp
        have h40 := hp.1.2
        simp [minimum_size, sizeof_file_header, sizeof_pkthdr] at h40
        omega
      have hlen_w : written.length =
          p.1.content.length + (rest.map fun q => q.1.content.length - 24).sum := by
        rw [hw]
        simp [List.length_flatMap, Function.comp_def, List.length_drop, h24]
      have hs2c := hs2
      have hs2' : fs =
          24 + ((p :: rest).map fun q => q.1.content.length - 24).sum := by
        rw [h24] at hs2
        rw [hs2, ← (hperm.map fun q => q.1.content.length - 24).sum_eq, hsort]
      have hw2 : written.length = fs := by
        rw [hlen_w, hs2']
        simp only [List.map_cons, List.sum_cons]
        omega
      refine ⟨p, rest, rfl, ?_, ?_⟩
      · rw [hout, hw2, Nat.sub_self, List.replicate_zero, List.append_nil, hw]
      · rw [← hw, hw2]
        exact hs2c

/-- C1 witness: two accepted inputs arriving out of timestamp order. -/
theorem merge_concat_output_witness :
    ∃ p rest,
      sort_accepted [(sample_entry 2, 2000000), (sample_entry 1, 1000000)] =
          p :: rest ∧
      (main_run env_two).output = some (p.1.content ++
          rest.flatMap fun q => q.1.content.drop sizeof_file_header) ∧
      (p.1.content ++
          (rest.flatMap fun q => q.1.content.drop sizeof_file_header)).length =
        sizeof_file_header +
          ([(sample_entry 2, 2000000), (sample_entry 1, 1000000)].map
            fun q => q.1.content.length - sizeof_file_header).sum :=
  merge_concat_output env_two
    [(sample_entry 2, 2000000), (sample_entry 1, 1000000)] 58
    rfl (by decide) rfl

end Mergecap
